import Mathlib

/-!
# Shiprocket Label Sorter — verification of the extraction/grouping pipeline

A shallow embedding of the label extraction-and-grouping core found in
`label_sorter.py` (and duplicated in `app.py`): courier/SKU normalization,
per-page field extraction driven by a fixed priority list of regular-expression
patterns, grouping of page indices by the `(date, courier, sku)` key, and
ordered emission of one output entry per group.

Strings are modelled as `List Char`.  Python regular-expression constructs are
embedded as executable functions on character lists; the character classes
`\s`, `\d` and case folding are modelled on their ASCII part (every pattern
literal in the source is ASCII), while `\w` — which in Python 3 is
Unicode-aware — is modelled exactly on ASCII and on the Latin-1/Latin-Extended
letter ranges, which is the part of the Unicode table this development
evaluates it on.
-/

namespace LabelSorter

/-- Characters matched by Python's regex class `\s` (ASCII whitespace:
space, tab, newline, carriage return, vertical tab, form feed). -/
def isPySpace (c : Char) : Bool :=
  c = ' ' || c = '\t' || c = '\n' || c = '\r' || c = '\x0b' || c = '\x0c'

/-- Characters matched by Python's regex class `\d` (ASCII digits). -/
def isPyDigit (c : Char) : Bool :=
  '0' ≤ c && c ≤ '9'

/-- Characters matched by Python's regex class `\w` on a `str` pattern.
Python's `\w` is Unicode-aware: it matches `[A-Za-z0-9_]` together with all
other Unicode word characters (letters and digits beyond ASCII).  The model is
exact on ASCII and on the Latin-1 Supplement / Latin Extended-A / Latin
Extended-B letter ranges (codepoints 0xAA, 0xB5, 0xBA, 0xC0–0x24F except the
multiplication and division signs); word characters above 0x24F are outside
the model and mapped to `false`.  No theorem below depends on codepoints above
0x24F. -/
def isPyWord (c : Char) : Bool :=
  (97 ≤ c.toNat && c.toNat ≤ 122) || (65 ≤ c.toNat && c.toNat ≤ 90) ||
    (48 ≤ c.toNat && c.toNat ≤ 57) || c.toNat = 95 ||
    c.toNat = 0xAA || c.toNat = 0xB5 || c.toNat = 0xBA ||
    (0xC0 ≤ c.toNat && c.toNat ≤ 0x24F && c.toNat ≠ 0xD7 && c.toNat ≠ 0xF7)

/-- Python's `str.lower` / `re.IGNORECASE` case folding, modelled on its ASCII
part (every pattern literal in the source is ASCII). -/
def lowerStr (s : List Char) : List Char :=
  s.map Char.toLower

/-- `hay.startswith(pat)`: the pattern list is a leading segment of `hay`. -/
def startsWithL : List Char → List Char → Bool
  | _, [] => true
  | [], _ :: _ => false
  | c :: cs, p :: ps => c = p && startsWithL cs ps

/-- Python's `pat in hay`: `pat` occurs as a contiguous segment of `hay`. -/
def containsL : List Char → List Char → Bool
  | [], pat => pat.isEmpty
  | c :: t, pat => startsWithL (c :: t) pat || containsL t pat

/-- `s.replace(' ', '-')` from the normalizers. -/
def spacesToHyphens (s : List Char) : List Char :=
  s.map (fun c => if c = ' ' then '-' else c)

/-- `re.sub(r'[^\w\-]', '', s)`: delete every character that is neither a
word character nor a hyphen. -/
def subNonWord (s : List Char) : List Char :=
  s.filter (fun c => isPyWord c || c = '-')

/-- `normalize_sku` from `label_sorter.py` (line 48): replace spaces with
hyphens, strip characters outside `[\w\-]`, truncate to 50 characters. -/
def normalize_sku (sku_raw : List Char) : List Char :=
  (subNonWord (spacesToHyphens sku_raw)).take 50

/-- `normalize_courier` from `label_sorter.py` (line 25): substring check of
the canonical carrier table against the lower-cased input, in priority order,
first match wins; otherwise the cleanup fallback (spaces to hyphens, strip
non-`[\w\-]`, truncate to 30). -/
def normalize_courier (courier_raw : List Char) : List Char :=
  let courier_lower := lowerStr courier_raw
  if containsL courier_lower ("ekart".toList) then "Ekart".toList
  else if containsL courier_lower ("delhivery".toList) then "Delhivery".toList
  else if containsL courier_lower ("xpressbees".toList) then "Xpressbees".toList
  else if containsL courier_lower ("bluedart".toList) then "BlueDart".toList
  else if containsL courier_lower ("dtdc".toList) then "DTDC".toList
  else if containsL courier_lower ("shadowfax".toList) then "Shadowfax".toList
  else if containsL courier_lower ("ecom".toList) then "EcomExpress".toList
  else (subNonWord (spacesToHyphens courier_raw)).take 30

example : normalize_sku ("ABC 123!".toList) = "ABC-123".toList := by decide
example : normalize_courier ("EKART logistics".toList) = "Ekart".toList := by decide
example : normalize_courier ("Some Courier".toList) = "Some-Courier".toList := by decide
example : normalize_courier ([]) = [] := by decide

/-- Drop the longest leading run of `\s` characters: the effect of a greedy
`\s*` when the next pattern atom cannot match a whitespace character. -/
def dropPySpaces : List Char → List Char
  | [] => []
  | c :: t => if isPySpace c then dropPySpaces t else c :: t

/-- Does `Ecom\s*Express` (lower-cased, `re.IGNORECASE`) match at the head of
the already lower-cased text?  Greedy `\s*` needs no backtracking here because
`express` starts with a non-whitespace character. -/
def ecomExpressAt (t : List Char) : Bool :=
  startsWithL t ("ecom".toList) && startsWithL (dropPySpaces (t.drop 4)) ("express".toList)

/-- `re.search` of `Ecom\s*Express[^\n]*` over the lower-cased text: try every
start position left to right.  (`[^\n]*` always matches and binds nothing.) -/
def ecomExpressSearch : List Char → Bool
  | [] => false
  | c :: t => ecomExpressAt (c :: t) || ecomExpressSearch t

/-- Whether the `k`-th pattern of `courier_patterns` in `extract_label_info`
matches the (already lower-cased) page text.  Patterns `0`–`5` have the form
`r'Name[^\n]*'` under `re.IGNORECASE`, which matches iff the lower-cased text
contains the lower-cased literal; pattern `6` is `r'Ecom\s*Express[^\n]*'`. -/
def patMatch (k : Nat) (lowText : List Char) : Bool :=
  match k with
  | 0 => containsL lowText ("ekart".toList)
  | 1 => containsL lowText ("delhivery".toList)
  | 2 => containsL lowText ("xpressbees".toList)
  | 3 => containsL lowText ("bluedart".toList)
  | 4 => containsL lowText ("dtdc".toList)
  | 5 => containsL lowText ("shadowfax".toList)
  | 6 => ecomExpressSearch lowText
  | _ => false

/-- The canonical names associated with the seven courier patterns, in
priority order. -/
def courierNames : List (List Char) :=
  [("Ekart".toList), ("Delhivery".toList), ("Xpressbees".toList), ("BlueDart".toList),
   ("DTDC".toList), ("Shadowfax".toList), ("EcomExpress".toList)]

/-- The courier-detection loop of `extract_label_info`: the first pattern in
list order that matches sets the courier and the scan stops; if none matches
the courier stays `"Unknown"`. -/
def findCourier (lowText : List Char) : List Char :=
  if patMatch 0 lowText then "Ekart".toList
  else if patMatch 1 lowText then "Delhivery".toList
  else if patMatch 2 lowText then "Xpressbees".toList
  else if patMatch 3 lowText then "BlueDart".toList
  else if patMatch 4 lowText then "DTDC".toList
  else if patMatch 5 lowText then "Shadowfax".toList
  else if patMatch 6 lowText then "EcomExpress".toList
  else "Unknown".toList

/-- Matching `\s*([^\n]+)` at the head of `t` with Python's greedy
backtracking, returning the captured group: `\s*` munches greedily; if nothing
non-empty remains for `[^\n]+` it gives characters back one at a time, and the
returned-to character (a whitespace character other than `'\n'`) is then
captured by `[^\n]+` together with the rest of its line. -/
def skuCaptureTail : List Char → Option (List Char)
  | [] => none
  | c :: t =>
    if isPySpace c then
      match skuCaptureTail t with
      | some r => some r
      | none => if c = '\n' then none else some ((c :: t).takeWhile (fun x => !(x == '\n')))
    else some ((c :: t).takeWhile (fun x => !(x == '\n')))

/-- `re.search(r'SKU:\s*([^\n]+)', page_text)` (case-sensitive): scan start
positions left to right; at each occurrence of the literal `SKU:` try the rest
of the pattern, and return the first successful capture. -/
def findSku : List Char → Option (List Char)
  | [] => none
  | c :: t =>
    if startsWithL (c :: t) ("SKU:".toList) then
      match skuCaptureTail ((c :: t).drop 4) with
      | some cap => some cap
      | none => findSku t
    else findSku t

/-- Python's `str.strip()` (ASCII whitespace part): drop whitespace from both
ends. -/
def pyStrip (s : List Char) : List Char :=
  ((s.dropWhile isPySpace).reverse.dropWhile isPySpace).reverse

/-- Matching `(\d{4}-\d{2}-\d{2})` at the head of `t`: exactly four digits,
a hyphen, two digits, a hyphen, two digits; the capture is those ten
characters (no lookahead — a following digit does not block the match). -/
def dateAt (t : List Char) : Option (List Char) :=
  match t with
  | y1 :: y2 :: y3 :: y4 :: h1 :: m1 :: m2 :: h2 :: d1 :: d2 :: _ =>
    if isPyDigit y1 && isPyDigit y2 && isPyDigit y3 && isPyDigit y4 && h1 = '-' &&
       isPyDigit m1 && isPyDigit m2 && h2 = '-' && isPyDigit d1 && isPyDigit d2 then
      some [y1, y2, y3, y4, h1, m1, m2, h2, d1, d2]
    else none
  | _ => none

/-- `re.search(r'(\d{4}-\d{2}-\d{2})', page_text)`: leftmost match of the bare
date pattern. -/
def findDateBare : List Char → Option (List Char)
  | [] => none
  | c :: t =>
    match dateAt (c :: t) with
    | some d => some d
    | none => findDateBare t

/-- `re.search(r'Invoice Date:\s*(\d{4}-\d{2}-\d{2})', page_text)`: at each
occurrence of the literal `Invoice Date:`, greedily skip `\s*` (no
backtracking is possible since `\d` rejects whitespace) and try the date
pattern; on failure the scan continues at the next start position. -/
def findInvoiceDate : List Char → Option (List Char)
  | [] => none
  | c :: t =>
    if startsWithL (c :: t) ("Invoice Date:".toList) then
      match dateAt (dropPySpaces ((c :: t).drop 13)) with
      | some d => some d
      | none => findInvoiceDate t
    else findInvoiceDate t

/-- The per-page record produced by `extract_label_info`. -/
structure LabelInfo where
  courier : List Char
  sku : List Char
  date : List Char
deriving Repr, DecidableEq

/-- `extract_label_info` from `label_sorter.py` (line 54).  `today` stands for
`datetime.now().strftime('%Y-%m-%d')`, the default used when no date pattern
is found on the page. -/
def extract_label_info (today : List Char) (page_text : List Char) : LabelInfo :=
  { courier := findCourier (lowerStr page_text)
    sku :=
      match findSku page_text with
      | some cap => normalize_sku (pyStrip cap)
      | none => "Unknown".toList
    date :=
      match findInvoiceDate page_text with
      | some d => d
      | none =>
        match findDateBare page_text with
        | some d => d
        | none => today }

example :
    extract_label_info ("2026-10-12".toList)
      ("Ekart Logistics\nSKU: ABC-123\nInvoice Date: 2024-01-15".toList) =
      { courier := "Ekart".toList, sku := "ABC-123".toList, date := "2024-01-15".toList } := by
  decide

example :
    extract_label_info ("2026-10-12".toList) ([]) =
      { courier := "Unknown".toList, sku := "Unknown".toList, date := "2026-10-12".toList } := by
  decide

example : (extract_label_info ("2026-10-12".toList) ("ecom".toList)).courier = "Unknown".toList := by
  decide

example :
    (extract_label_info ("2026-10-12".toList) ("Ecom  Express pkg".toList)).courier =
      "EcomExpress".toList := by
  decide

example :
    (extract_label_info ("2026-10-12".toList) ("Shadowfax Delhivery".toList)).courier =
      "Delhivery".toList := by
  decide

example : (extract_label_info ("2026-10-12".toList) ("SKU: !!!\n".toList)).sku = [] := by
  decide

example :
    (extract_label_info ("2026-10-12".toList) ("on 2024-13-45 ok".toList)).date =
      "2024-13-45".toList := by
  decide

/-- The grouping key `(info['date'], info['courier'], info['sku'])`. -/
abbrev Key := List Char × List Char × List Char

/-- The key of one page's extracted record, in the tuple order used by
`sort_labels`. -/
def keyOf (info : LabelInfo) : Key :=
  (info.date, info.courier, info.sku)

/-- Python string `<`: lexicographic comparison by code point. -/
def strLt : List Char → List Char → Bool
  | [], [] => false
  | [], _ :: _ => true
  | _ :: _, [] => false
  | a :: x, b :: y => a.toNat < b.toNat || (a.toNat == b.toNat && strLt x y)

/-- Python tuple `<` on `(date, courier, sku)`: date compared first, then
courier, then SKU, each by string code-point order. -/
def keyLt (a b : Key) : Bool :=
  strLt a.1 b.1 ||
    (a.1 == b.1 &&
      (strLt a.2.1 b.2.1 || (a.2.1 == b.2.1 && strLt a.2.2 b.2.2)))

/-- The non-strict order used to model Python's ascending `sorted`. -/
def keyLe (a b : Key) : Bool :=
  !(keyLt b a)

/-- One step of `groups[key].append(i)` on a `defaultdict(list)` whose
insertion order is preserved: append `i` to the existing entry for `k`, or add
a fresh entry `(k, [i])` at the end. -/
def addPage (groups : List (Key × List Nat)) (k : Key) (i : Nat) : List (Key × List Nat) :=
  match groups with
  | [] => [(k, [i])]
  | (k0, is0) :: rest =>
    if k0 = k then (k0, is0 ++ [i]) :: rest
    else (k0, is0) :: addPage rest k i

/-- The page-scanning loop of `sort_labels`: pages are visited in source
order; page `i` (0-based) contributes its index to the group of its key. -/
def buildGroupsAux (today : List Char) : Nat → List (List Char) → List (Key × List Nat) →
    List (Key × List Nat)
  | _, [], groups => groups
  | i, t :: ts, groups =>
    buildGroupsAux today (i + 1) ts (addPage groups (keyOf (extract_label_info today t)) i)

/-- The finalized group map of `sort_labels` for a document given as the list
of its pages' extracted texts. -/
def buildGroups (today : List Char) (texts : List (List Char)) : List (Key × List Nat) :=
  buildGroupsAux today 0 texts []

/-- The comparison used to model `sorted(groups.items())`: the group keys are
pairwise distinct, so Python's tuple comparison on `(key, page_indices)` pairs
never reaches the page-index lists and the sort is by key alone. -/
def entryLe (a b : Key × List Nat) : Prop :=
  keyLe a.1 b.1 = true

instance : DecidableRel entryLe := fun a b => by
  unfold entryLe
  infer_instance

/-- `sorted(groups.items())`: a stable ascending sort of the insertion-ordered
group list. -/
def sortGroups (groups : List (Key × List Nat)) : List (Key × List Nat) :=
  groups.insertionSort entryLe

/-- The output filename `f"{date}_{courier}_{sku}.pdf"`. -/
def mkFilename (date courier sku : List Char) : List Char :=
  date ++ ("_".toList) ++ courier ++ ("_".toList) ++ sku ++ (".pdf".toList)

/-- One element of the `results` summary list of `sort_labels`. -/
structure OutputEntry where
  file : List Char
  date : List Char
  courier : List Char
  sku : List Char
  labels : Nat
deriving Repr, DecidableEq

/-- The summary returned by `sort_labels`. -/
structure SortResult where
  total_labels : Nat
  files : List OutputEntry
deriving Repr, DecidableEq

/-- `sort_labels` from `label_sorter.py` (line 97), restricted to its
repeatable core: group the pages by key, visit the groups in ascending sorted
key order, and emit one output entry per group.  The same loop produces the
emitted files and the summary entries, in one order. -/
def sort_labels (today : List Char) (texts : List (List Char)) : SortResult :=
  let groups := buildGroups today texts
  let sortedList := sortGroups groups
  { total_labels := texts.length
    files := sortedList.map (fun g =>
      { file := mkFilename g.1.1 g.1.2.1 g.1.2.2
        date := g.1.1
        courier := g.1.2.1
        sku := g.1.2.2
        labels := g.2.length }) }

example :
    sort_labels ("2026-10-12".toList)
      [("Ekart Logistics\nSKU: ABC-123\nInvoice Date: 2024-01-15".toList),
       ("Ekart Logistics\nSKU: ABC-123\nInvoice Date: 2024-01-15".toList),
       ("Delhivery Express\nSKU: XYZ_99\nInvoice Date: 2024-01-16".toList)] =
      { total_labels := 3
        files :=
          [{ file := "2024-01-15_Ekart_ABC-123.pdf".toList, date := "2024-01-15".toList,
             courier := "Ekart".toList, sku := "ABC-123".toList, labels := 2 },
           { file := "2024-01-16_Delhivery_XYZ_99.pdf".toList, date := "2024-01-16".toList,
             courier := "Delhivery".toList, sku := "XYZ_99".toList, labels := 1 }] } := by
  decide

example : sort_labels ("2026-10-12".toList) [] = { total_labels := 0, files := [] } := by
  decide

/-- The per-file write loop of the CLI `sort_labels` (`label_sorter.py` lines
143–163): each group file is written directly into the output directory; `ok`
tells whether the serialization/write of a given filename succeeds.  A failing
write raises, aborting the loop — but files written earlier remain delivered
on disk.  Returns the delivered filenames and whether the run succeeded. -/
def runCLI (ok : List Char → Bool) : List OutputEntry → List (List Char) × Bool
  | [] => ([], true)
  | e :: rest =>
    if ok e.file then
      match runCLI ok rest with
      | (ds, succ) => (e.file :: ds, succ)
    else ([], false)

/-- The archive write loop of the web `sort_labels` (`app.py` lines 119–145):
each group is serialized into an in-memory zip buffer; a failing
serialization/write raises out of `sort_labels`, the buffer is discarded by
the caller's exception handler, and nothing is delivered.  `some` holds the
delivered archive member names of a successful run. -/
def runWeb (ok : List Char → Bool) : List OutputEntry → Option (List (List Char))
  | [] => some []
  | e :: rest =>
    if ok e.file then (runWeb ok rest).map (fun ds => e.file :: ds)
    else none

/-! ### Order-theoretic facts about the key comparison -/

theorem strLt_irrefl : ∀ x : List Char, strLt x x = false
  | [] => rfl
  | a :: xs => by simp [strLt, strLt_irrefl xs]

theorem strLt_trans : ∀ {x y z : List Char},
    strLt x y = true → strLt y z = true → strLt x z = true
  | [], [], _, h1, _ => by simp [strLt] at h1
  | [], _ :: _, [], _, h2 => by simp [strLt] at h2
  | [], _ :: _, _ :: _, _, _ => by simp [strLt]
  | _ :: _, [], _, h1, _ => by simp [strLt] at h1
  | _ :: _, _ :: _, [], _, h2 => by simp [strLt] at h2
  | a :: xs, b :: ys, c :: zs, h1, h2 => by
    simp only [strLt, Bool.or_eq_true, Bool.and_eq_true, decide_eq_true_eq, beq_iff_eq] at h1 h2 ⊢
    rcases h1 with h1 | ⟨hab, h1⟩
    · rcases h2 with h2 | ⟨hbc, h2⟩
      · exact Or.inl (by omega)
      · exact Or.inl (by omega)
    · rcases h2 with h2 | ⟨hbc, h2⟩
      · exact Or.inl (by omega)
      · exact Or.inr ⟨by omega, strLt_trans h1 h2⟩

theorem strLt_trichotomy : ∀ x y : List Char, strLt x y = true ∨ x = y ∨ strLt y x = true
  | [], [] => Or.inr (Or.inl rfl)
  | [], _ :: _ => Or.inl (by simp [strLt])
  | _ :: _, [] => Or.inr (Or.inr (by simp [strLt]))
  | a :: xs, b :: ys => by
    rcases Nat.lt_trichotomy a.toNat b.toNat with h | h | h
    · refine Or.inl ?_
      simp only [strLt, Bool.or_eq_true, decide_eq_true_eq]
      exact Or.inl h
    · have hab : a = b := Char.ext (UInt32.toNat.inj h)
      subst hab
      rcases strLt_trichotomy xs ys with h' | h' | h'
      · refine Or.inl ?_
        simp [strLt, h']
      · exact Or.inr (Or.inl (by rw [h']))
      · refine Or.inr (Or.inr ?_)
        simp [strLt, h']
    · refine Or.inr (Or.inr ?_)
      simp only [strLt, Bool.or_eq_true, decide_eq_true_eq]
      exact Or.inl h

theorem strLt_asymm {x y : List Char} (h : strLt x y = true) : strLt y x = false := by
  by_contra h'
  have h'' : strLt y x = true := by
    cases hxy : strLt y x
    · exact absurd hxy h'
    · rfl
  have := strLt_trans h h''
  rw [strLt_irrefl] at this
  exact Bool.false_ne_true this

theorem keyLt_irrefl (a : Key) : keyLt a a = false := by
  obtain ⟨a1, a2, a3⟩ := a
  simp [keyLt, strLt_irrefl]

theorem keyLt_trans {a b c : Key} (h1 : keyLt a b = true) (h2 : keyLt b c = true) :
    keyLt a c = true := by
  obtain ⟨a1, a2, a3⟩ := a
  obtain ⟨b1, b2, b3⟩ := b
  obtain ⟨c1, c2, c3⟩ := c
  simp only [keyLt, Bool.or_eq_true, Bool.and_eq_true, beq_iff_eq] at h1 h2 ⊢
  rcases h1 with h1 | ⟨rfl, h1⟩
  · rcases h2 with h2 | ⟨rfl, h2⟩
    · exact Or.inl (strLt_trans h1 h2)
    · exact Or.inl h1
  · rcases h2 with h2 | ⟨rfl, h2⟩
    · exact Or.inl h2
    · refine Or.inr ⟨rfl, ?_⟩
      rcases h1 with h1 | ⟨rfl, h1⟩
      · rcases h2 with h2 | ⟨rfl, h2⟩
        · exact Or.inl (strLt_trans h1 h2)
        · exact Or.inl h1
      · rcases h2 with h2 | ⟨rfl, h2⟩
        · exact Or.inl h2
        · exact Or.inr ⟨rfl, strLt_trans h1 h2⟩

theorem keyLt_trichotomy (a b : Key) : keyLt a b = true ∨ a = b ∨ keyLt b a = true := by
  obtain ⟨a1, a2, a3⟩ := a
  obtain ⟨b1, b2, b3⟩ := b
  rcases strLt_trichotomy a1 b1 with h1 | rfl | h1
  · exact Or.inl (by simp [keyLt, h1])
  · rcases strLt_trichotomy a2 b2 with h2 | rfl | h2
    · exact Or.inl (by simp [keyLt, h2])
    · rcases strLt_trichotomy a3 b3 with h3 | rfl | h3
      · exact Or.inl (by simp [keyLt, h3])
      · exact Or.inr (Or.inl rfl)
      · exact Or.inr (Or.inr (by simp [keyLt, h3]))
    · exact Or.inr (Or.inr (by simp [keyLt, h2]))
  · exact Or.inr (Or.inr (by simp [keyLt, h1]))

theorem keyLt_asymm {a b : Key} (h : keyLt a b = true) : keyLt b a = false := by
  cases hba : keyLt b a
  · rfl
  · have := keyLt_trans h hba
    rw [keyLt_irrefl] at this
    exact absurd this Bool.false_ne_true

theorem keyLe_of_keyLt {a b : Key} (h : keyLt a b = true) : keyLe a b = true := by
  unfold keyLe
  rw [keyLt_asymm h]
  rfl

theorem keyLe_refl (a : Key) : keyLe a a = true := by
  unfold keyLe
  rw [keyLt_irrefl]
  rfl

theorem keyLt_of_keyLe_of_ne {a b : Key} (h : keyLe a b = true) (hne : a ≠ b) :
    keyLt a b = true := by
  unfold keyLe at h
  rcases keyLt_trichotomy a b with h1 | rfl | h1
  · exact h1
  · exact absurd rfl hne
  · rw [h1] at h
    exact absurd h (by decide)

theorem keyLe_trans {a b c : Key} (h1 : keyLe a b = true) (h2 : keyLe b c = true) :
    keyLe a c = true := by
  unfold keyLe at h1 h2 ⊢
  rcases keyLt_trichotomy c a with h | rfl | h
  · rcases keyLt_trichotomy b c with h' | rfl | h'
    · have := keyLt_trans h' h
      rw [this] at h1
      exact absurd h1 (by decide)
    · rw [h] at h1
      exact absurd h1 (by decide)
    · rw [h'] at h2
      exact absurd h2 (by decide)
  · rw [keyLt_irrefl]
    rfl
  · rw [keyLt_asymm h]
    rfl

theorem keyLe_total (a b : Key) : keyLe a b = true ∨ keyLe b a = true := by
  rcases keyLt_trichotomy a b with h | rfl | h
  · exact Or.inl (keyLe_of_keyLt h)
  · exact Or.inl (keyLe_refl a)
  · exact Or.inr (keyLe_of_keyLt h)

instance : IsTotal (Key × List Nat) entryLe :=
  ⟨fun a b => keyLe_total a.1 b.1⟩

instance : IsTrans (Key × List Nat) entryLe :=
  ⟨fun _ _ _ h1 h2 => keyLe_trans h1 h2⟩

/-! ### Facts about the grouping engine -/

/-- Total number of page indices held by a group list. -/
def sumLabels (groups : List (Key × List Nat)) : Nat :=
  (groups.map (fun g => g.2.length)).sum

theorem sumLabels_addPage (groups : List (Key × List Nat)) (k : Key) (i : Nat) :
    sumLabels (addPage groups k i) = sumLabels groups + 1 := by
  induction groups with
  | nil => simp [addPage, sumLabels]
  | cons g rest ih =>
    obtain ⟨k0, is0⟩ := g
    by_cases h : k0 = k
    · simp [addPage, h, sumLabels]
      omega
    · simp only [addPage, if_neg h]
      simp only [sumLabels, List.map_cons, List.sum_cons] at ih ⊢
      omega

theorem sumLabels_buildGroupsAux (today : List Char) :
    ∀ (ts : List (List Char)) (i : Nat) (groups : List (Key × List Nat)),
      sumLabels (buildGroupsAux today i ts groups) = sumLabels groups + ts.length
  | [], _, _ => by simp [buildGroupsAux]
  | t :: ts, i, groups => by
    simp only [buildGroupsAux, List.length_cons]
    rw [sumLabels_buildGroupsAux today ts (i + 1) _, sumLabels_addPage]
    omega

theorem sumLabels_sortGroups (groups : List (Key × List Nat)) :
    sumLabels (sortGroups groups) = sumLabels groups := by
  unfold sumLabels sortGroups
  exact ((groups.perm_insertionSort entryLe).map (fun g => g.2.length)).sum_eq

/-- The keys present in a group list. -/
def keysOf (groups : List (Key × List Nat)) : List Key :=
  groups.map (fun g => g.1)

theorem keysOf_addPage_of_mem (groups : List (Key × List Nat)) (k : Key) (i : Nat)
    (h : k ∈ keysOf groups) : keysOf (addPage groups k i) = keysOf groups := by
  induction groups with
  | nil => simp [keysOf] at h
  | cons g rest ih =>
    obtain ⟨k0, is0⟩ := g
    by_cases hk : k0 = k
    · simp [addPage, hk, keysOf]
    · have h' : k ∈ keysOf rest := by
        simp only [keysOf, List.map_cons, List.mem_cons] at h
        rcases h with h | h
        · exact absurd h.symm hk
        · simpa [keysOf] using h
      have ih' := ih h'
      simp only [addPage, if_neg hk, keysOf, List.map_cons] at ih' ⊢
      rw [ih']

theorem keysOf_addPage_of_not_mem (groups : List (Key × List Nat)) (k : Key) (i : Nat)
    (h : k ∉ keysOf groups) : keysOf (addPage groups k i) = keysOf groups ++ [k] := by
  induction groups with
  | nil => simp [addPage, keysOf]
  | cons g rest ih =>
    obtain ⟨k0, is0⟩ := g
    have hne : k ≠ k0 := fun he => h (by simp [keysOf, he])
    have h' : k ∉ keysOf rest := fun hm => h (by simp only [keysOf, List.map_cons]; exact List.mem_cons_of_mem _ (by simpa [keysOf] using hm))
    by_cases hk : k0 = k
    · exact absurd hk.symm hne
    · have ih' := ih h'
      simp only [addPage, if_neg hk, keysOf, List.map_cons] at ih' ⊢
      rw [ih', List.cons_append]

theorem nodup_keysOf_addPage (groups : List (Key × List Nat)) (k : Key) (i : Nat)
    (h : (keysOf groups).Nodup) : (keysOf (addPage groups k i)).Nodup := by
  by_cases hm : k ∈ keysOf groups
  · rw [keysOf_addPage_of_mem groups k i hm]
    exact h
  · rw [keysOf_addPage_of_not_mem groups k i hm]
    simp [List.nodup_append, h, hm]

theorem nodup_keysOf_buildGroupsAux (today : List Char) :
    ∀ (ts : List (List Char)) (i : Nat) (groups : List (Key × List Nat)),
      (keysOf groups).Nodup → (keysOf (buildGroupsAux today i ts groups)).Nodup
  | [], _, _, h => h
  | _t :: ts, i, groups, h =>
    nodup_keysOf_buildGroupsAux today ts (i + 1) _ (nodup_keysOf_addPage groups _ i h)

theorem nodup_keysOf_buildGroups (today : List Char) (texts : List (List Char)) :
    (keysOf (buildGroups today texts)).Nodup :=
  nodup_keysOf_buildGroupsAux today texts 0 [] List.nodup_nil

theorem mem_addPage (groups : List (Key × List Nat)) (k0 : Key) (i : Nat) (k : Key)
    (is1 : List Nat) (hmem : (k, is1) ∈ addPage groups k0 i) (j : Nat) (hj : j ∈ is1) :
    (∃ is0, (k, is0) ∈ groups ∧ j ∈ is0) ∨ (j = i ∧ k = k0) := by
  induction groups with
  | nil =>
    simp only [addPage, List.mem_singleton, Prod.mk.injEq] at hmem
    obtain ⟨rfl, rfl⟩ := hmem
    simp only [List.mem_singleton] at hj
    exact Or.inr ⟨hj, rfl⟩
  | cons g rest ih =>
    obtain ⟨k1, js1⟩ := g
    by_cases hk : k1 = k0
    · subst hk
      rw [addPage, if_pos rfl] at hmem
      rcases List.mem_cons.mp hmem with heq | hmem'
      · have hkk : k = k1 := congrArg Prod.fst heq
        have his : is1 = js1 ++ [i] := congrArg Prod.snd heq
        subst hkk
        rw [his] at hj
        rcases List.mem_append.mp hj with hj' | hj'
        · exact Or.inl ⟨js1, List.mem_cons_self _ _, hj'⟩
        · simp only [List.mem_singleton] at hj'
          exact Or.inr ⟨hj', rfl⟩
      · exact Or.inl ⟨is1, List.mem_cons_of_mem _ hmem', hj⟩
    · rw [addPage, if_neg hk] at hmem
      rcases List.mem_cons.mp hmem with heq | hmem'
      · have hkk : k = k1 := congrArg Prod.fst heq
        have his : is1 = js1 := congrArg Prod.snd heq
        subst hkk
        rw [his] at hj
        exact Or.inl ⟨js1, List.mem_cons_self _ _, hj⟩
      · rcases ih hmem' with ⟨is0, h1, h2⟩ | h
        · exact Or.inl ⟨is0, List.mem_cons_of_mem _ h1, h2⟩
        · exact Or.inr h

theorem mem_buildGroupsAux (today : List Char) :
    ∀ (ts : List (List Char)) (i : Nat) (groups : List (Key × List Nat)) (k : Key)
      (is1 : List Nat), (k, is1) ∈ buildGroupsAux today i ts groups → ∀ j ∈ is1,
      (∃ is0, (k, is0) ∈ groups ∧ j ∈ is0) ∨
        (∃ p, p < ts.length ∧ j = i + p ∧ k = keyOf (extract_label_info today (ts.getD p [])))
  | [], _, _, _, _, hmem, j, hj => Or.inl ⟨_, hmem, hj⟩
  | t :: ts, i, groups, k, is1, hmem, j, hj => by
    simp only [buildGroupsAux] at hmem
    rcases mem_buildGroupsAux today ts (i + 1) _ k is1 hmem j hj with ⟨is0, h1, h2⟩ | ⟨p, hp, rfl, hk⟩
    · rcases mem_addPage groups _ i k is0 h1 j h2 with h | ⟨rfl, rfl⟩
      · exact Or.inl h
      · exact Or.inr ⟨0, by simp, by omega, by simp⟩
    · refine Or.inr ⟨p + 1, by simpa using hp, by omega, by simpa using hk⟩

/-- Every index list in the group map holds indices below the bound `b`, in
strictly increasing (source) order. -/
def GroupsBounded (groups : List (Key × List Nat)) (b : Nat) : Prop :=
  ∀ g ∈ groups, g.2.Pairwise (· < ·) ∧ ∀ j ∈ g.2, j < b

theorem groupsBounded_mono {groups : List (Key × List Nat)} {b b' : Nat}
    (h : GroupsBounded groups b) (hb : b ≤ b') : GroupsBounded groups b' :=
  fun g hg => ⟨(h g hg).1, fun j hj => lt_of_lt_of_le ((h g hg).2 j hj) hb⟩

theorem groupsBounded_addPage {groups : List (Key × List Nat)} {i : Nat} (k : Key)
    (h : GroupsBounded groups i) : GroupsBounded (addPage groups k i) (i + 1) := by
  induction groups with
  | nil =>
    intro g hg
    simp only [addPage, List.mem_singleton] at hg
    subst hg
    exact ⟨List.pairwise_singleton _ _, by simp⟩
  | cons g0 rest ih =>
    obtain ⟨k0, is0⟩ := g0
    have h0 := h (k0, is0) (List.mem_cons_self _ _)
    have hrest : GroupsBounded rest i := fun g hg => h g (List.mem_cons_of_mem _ hg)
    by_cases hk : k0 = k
    · intro g hg
      simp only [addPage, if_pos hk, List.mem_cons] at hg
      rcases hg with rfl | hg
      · refine ⟨?_, ?_⟩
        · rw [List.pairwise_append]
          exact ⟨h0.1, List.pairwise_singleton _ _,
            fun a ha b hb => by simp only [List.mem_singleton] at hb; subst hb; exact h0.2 a ha⟩
        · intro j hj
          rcases List.mem_append.mp hj with hj | hj
          · exact lt_of_lt_of_le (h0.2 j hj) (Nat.le_succ i)
          · simp only [List.mem_singleton] at hj
            omega
      · exact (groupsBounded_mono hrest (Nat.le_succ i)) g hg
    · intro g hg
      simp only [addPage, if_neg hk, List.mem_cons] at hg
      rcases hg with rfl | hg
      · exact ⟨h0.1, fun j hj => lt_of_lt_of_le (h0.2 j hj) (Nat.le_succ i)⟩
      · exact ih hrest g hg

theorem groupsBounded_buildGroupsAux (today : List Char) :
    ∀ (ts : List (List Char)) (i : Nat) (groups : List (Key × List Nat)),
      GroupsBounded groups i →
      GroupsBounded (buildGroupsAux today i ts groups) (i + ts.length)
  | [], _, _, h => by simpa using h
  | t :: ts, i, groups, h => by
    have h1 := groupsBounded_addPage (keyOf (extract_label_info today t)) h
    have h2 := groupsBounded_buildGroupsAux today ts (i + 1) _ h1
    simpa [Nat.add_comm, Nat.add_assoc, Nat.add_left_comm] using h2

theorem groupsBounded_buildGroups (today : List Char) (texts : List (List Char)) :
    GroupsBounded (buildGroups today texts) texts.length := by
  have := groupsBounded_buildGroupsAux today texts 0 [] (by intro g hg; simp at hg)
  simpa using this

/-- The sorted group list is strictly ascending in the key order: adjacent
distinct keys related by the non-strict sort order are strictly related. -/
theorem pairwise_keyLt_sortGroups (groups : List (Key × List Nat))
    (hnd : (keysOf groups).Nodup) :
    (sortGroups groups).Pairwise (fun a b => keyLt a.1 b.1 = true) := by
  have hsorted : (sortGroups groups).Pairwise entryLe :=
    List.sorted_insertionSort entryLe groups
  have hperm : List.Perm (sortGroups groups) groups := groups.perm_insertionSort entryLe
  have hnd' : (keysOf (sortGroups groups)).Nodup := by
    unfold keysOf at hnd ⊢
    exact (hperm.map (fun g => g.1)).nodup_iff.mpr hnd
  have hne : (sortGroups groups).Pairwise (fun a b => a.1 ≠ b.1) := by
    unfold keysOf at hnd'
    exact List.pairwise_map.mp hnd'
  exact (hsorted.and hne).imp (fun h => keyLt_of_keyLe_of_ne h.1 h.2)

theorem key_addPage (groups : List (Key × List Nat)) (k0 : Key) (i : Nat)
    (g : Key × List Nat) (hg : g ∈ addPage groups k0 i) :
    g.1 = k0 ∨ g.1 ∈ keysOf groups := by
  induction groups with
  | nil =>
    simp only [addPage, List.mem_singleton] at hg
    subst hg
    exact Or.inl rfl
  | cons g1 rest ih =>
    obtain ⟨k1, is1⟩ := g1
    by_cases hk : k1 = k0
    · rw [addPage, if_pos hk] at hg
      rcases List.mem_cons.mp hg with heq | hmem
      · exact Or.inl (by rw [heq, hk])
      · exact Or.inr (by simp only [keysOf, List.map_cons]; exact List.mem_cons_of_mem _ (List.mem_map_of_mem _ hmem))
    · rw [addPage, if_neg hk] at hg
      rcases List.mem_cons.mp hg with heq | hmem
      · exact Or.inr (by simp [keysOf, heq])
      · rcases ih hmem with h | h
        · exact Or.inl h
        · exact Or.inr (by simp only [keysOf, List.map_cons]; exact List.mem_cons_of_mem _ (by simpa [keysOf] using h))

theorem key_buildGroupsAux (today : List Char) :
    ∀ (ts : List (List Char)) (i : Nat) (groups : List (Key × List Nat)) (g : Key × List Nat),
      g ∈ buildGroupsAux today i ts groups →
      g.1 ∈ keysOf groups ∨ ∃ t ∈ ts, g.1 = keyOf (extract_label_info today t)
  | [], _, _, _, hg => Or.inl (by simpa [keysOf] using List.mem_map_of_mem (fun x => x.1) hg)
  | t :: ts, i, groups, g, hg => by
    rcases key_buildGroupsAux today ts (i + 1) _ g hg with h | ⟨t', ht', hk⟩
    · by_cases hmem : g.1 = keyOf (extract_label_info today t)
      · exact Or.inr ⟨t, List.mem_cons_self _ _, hmem⟩
      · rcases List.mem_map.mp h with ⟨g', hg', hgk⟩
        rcases key_addPage groups _ i g' hg' with h' | h'
        · exact Or.inr ⟨t, List.mem_cons_self _ _, by rw [← hgk, h']⟩
        · exact Or.inl (by rw [← hgk]; exact h')
    · exact Or.inr ⟨t', List.mem_cons_of_mem _ ht', hk⟩

/-- The courier emitted by the detection loop is always one of the seven
canonical names or the sentinel. -/
theorem findCourier_mem_allowed (lt : List Char) :
    findCourier lt ∈ courierNames ++ [("Unknown".toList)] := by
  unfold findCourier
  split_ifs <;> decide

/-!  ## The claims -/

/-- C1 — Page conservation: for every input document processed by
`sort_labels`, the sum of the per-group label counts in the returned summary
equals the total source page count; the zero-page document yields zero groups
and zero output files (and a zero total). -/
theorem c1_page_conservation (today : List Char) (texts : List (List Char)) :
    ((sort_labels today texts).files.map (fun e => e.labels)).sum =
        (sort_labels today texts).total_labels ∧
      (sort_labels today texts).total_labels = texts.length ∧
      (sort_labels today ([] : List (List Char))).files = [] ∧
      (sort_labels today ([] : List (List Char))).total_labels = 0 := by
  refine ⟨?_, rfl, rfl, rfl⟩
  simp only [sort_labels, List.map_map]
  show sumLabels (sortGroups (buildGroups today texts)) = texts.length
  rw [sumLabels_sortGroups]
  unfold buildGroups
  rw [sumLabels_buildGroupsAux]
  simp [sumLabels]

/-- C6 — Canonical emission order: the Output Assembler visits group keys in
ascending lexicographic order of the `(date, courier, sku)` tuple (date
compared first, then courier, then SKU — the order `keyLt` spells out), and
the summary contains one entry per group whose filename is exactly the emitted
`{date}_{courier}_{sku}.pdf` file, in the same order. -/
theorem c6_canonical_emission_order (today : List Char) (texts : List (List Char)) :
    ((sort_labels today texts).files.map (fun e => (e.date, e.courier, e.sku))).Pairwise
        (fun a b => keyLt a b = true) ∧
      (sort_labels today texts).files.map (fun e => e.file) =
        (sort_labels today texts).files.map (fun e => mkFilename e.date e.courier e.sku) ∧
      (sort_labels today texts).files.length = (buildGroups today texts).length := by
  refine ⟨?_, ?_, ?_⟩
  · simp only [sort_labels, List.map_map]
    have h := pairwise_keyLt_sortGroups (buildGroups today texts)
      (nodup_keysOf_buildGroups today texts)
    exact List.pairwise_map.mpr h
  · simp only [sort_labels, List.map_map]
    rfl
  · simp only [sort_labels, List.length_map]
    exact ((buildGroups today texts).perm_insertionSort entryLe).length_eq

/-- C7 — Determinism: re-running the pipeline on the same pages with the same
processing date yields the same result (the pipeline is a pure function of
`(today, texts)`); group membership is characterized by the per-page key
(every index stored under key `k` is an in-range page whose extracted record
has key `k`); and within each group the page indices appear in strictly
increasing source order. -/
theorem c7_determinism (today : List Char) (texts : List (List Char)) :
    sort_labels today texts = sort_labels today texts ∧
      buildGroups today texts = buildGroups today texts ∧
      (∀ g ∈ buildGroups today texts,
        g.2.Pairwise (fun a b => a < b) ∧ ∀ j ∈ g.2, j < texts.length) ∧
      (∀ k is1, (k, is1) ∈ buildGroups today texts → ∀ j ∈ is1,
        k = keyOf (extract_label_info today (texts.getD j []))) := by
  refine ⟨rfl, rfl, ?_, ?_⟩
  · exact groupsBounded_buildGroups today texts
  · intro k is1 hmem j hj
    rcases mem_buildGroupsAux today texts 0 [] k is1 hmem j hj with ⟨is0, h0, _⟩ | ⟨p, _, hjp, hk⟩
    · simp at h0
    · have : j = p := by omega
      subst this
      exact hk

/-- Witness for C7 at a concrete three-page document: the two Ekart pages form
the group `[0, 1]`, and the stored key is the key extracted from page 1. -/
theorem c7_witness :
    ((("2024-01-15".toList, "Ekart".toList, "ABC-123".toList) : Key),
        ([0, 1] : List Nat)) ∈
        buildGroups ("2026-10-12".toList)
          [("Ekart Logistics\nSKU: ABC-123\nInvoice Date: 2024-01-15".toList),
           ("Ekart Logistics\nSKU: ABC-123\nInvoice Date: 2024-01-15".toList),
           ("Delhivery Express\nSKU: XYZ_99\nInvoice Date: 2024-01-16".toList)] ∧
      (("2024-01-15".toList, "Ekart".toList, "ABC-123".toList) : Key) =
        keyOf (extract_label_info ("2026-10-12".toList)
          (([("Ekart Logistics\nSKU: ABC-123\nInvoice Date: 2024-01-15".toList),
             ("Ekart Logistics\nSKU: ABC-123\nInvoice Date: 2024-01-15".toList),
             ("Delhivery Express\nSKU: XYZ_99\nInvoice Date: 2024-01-16".toList)].getD 1 []))) :=
  ⟨by decide,
    (c7_determinism ("2026-10-12".toList)
        [("Ekart Logistics\nSKU: ABC-123\nInvoice Date: 2024-01-15".toList),
         ("Ekart Logistics\nSKU: ABC-123\nInvoice Date: 2024-01-15".toList),
         ("Delhivery Express\nSKU: XYZ_99\nInvoice Date: 2024-01-16".toList)]).2.2.2
      (("2024-01-15".toList, "Ekart".toList, "ABC-123".toList) : Key) ([0, 1] : List Nat)
      (by decide) 1 (by decide)⟩

/-- C9 — Implicit courier closed set: the courier field of every extracted
record is one of the seven canonical names or `"Unknown"`, and so is the
courier of every emitted output entry — `extract_label_info` never invokes
`normalize_courier`, so its fallback cleanup branch never reaches a group key
or filename. -/
theorem c9_courier_closed_set (today text : List Char) (texts : List (List Char)) :
    (extract_label_info today text).courier ∈ courierNames ++ [("Unknown".toList)] ∧
      ∀ e ∈ (sort_labels today texts).files,
        e.courier ∈ courierNames ++ [("Unknown".toList)] := by
  constructor
  · exact findCourier_mem_allowed (lowerStr text)
  · intro e he
    simp only [sort_labels] at he
    rcases List.mem_map.mp he with ⟨g, hg, rfl⟩
    have hg' : g ∈ buildGroups today texts :=
      ((buildGroups today texts).perm_insertionSort entryLe).mem_iff.mp hg
    rcases key_buildGroupsAux today texts 0 [] g hg' with h | ⟨t, _, hk⟩
    · simp [keysOf] at h
    · show g.1.2.1 ∈ _
      rw [hk]
      exact findCourier_mem_allowed (lowerStr t)

/-- Witness for C9 at a concrete one-page document. -/
theorem c9_witness :
    ({ file := "2024-01-15_Ekart_ABC-123.pdf".toList, date := "2024-01-15".toList,
        courier := "Ekart".toList, sku := "ABC-123".toList, labels := 1 } : OutputEntry) ∈
        (sort_labels ("2026-10-12".toList)
          [("Ekart Logistics\nSKU: ABC-123\nInvoice Date: 2024-01-15".toList)]).files ∧
      ("Ekart".toList) ∈ courierNames ++ [("Unknown".toList)] :=
  ⟨by decide,
    (c9_courier_closed_set ("2026-10-12".toList) ([])
        [("Ekart Logistics\nSKU: ABC-123\nInvoice Date: 2024-01-15".toList)]).2
      { file := "2024-01-15_Ekart_ABC-123.pdf".toList, date := "2024-01-15".toList,
        courier := "Ekart".toList, sku := "ABC-123".toList, labels := 1 }
      (by decide)⟩

/-- C5 — First-match priority: whenever pattern `i` of the fixed priority
table matches the page text and no earlier pattern does, the extracted courier
is the canonical name of pattern `i`, regardless of where in the page text the
carrier names occur. -/
theorem c5_first_match_priority (today text : List Char) (i : Nat) (hi : i < 7)
    (hmatch : patMatch i (lowerStr text) = true)
    (hfirst : ∀ k, k < i → patMatch k (lowerStr text) = false) :
    (extract_label_info today text).courier = courierNames.getD i [] := by
  show findCourier (lowerStr text) = courierNames.getD i []
  interval_cases i
  · simp [findCourier, hmatch, courierNames]
  · have h0 := hfirst 0 (by omega)
    simp [findCourier, h0, hmatch, courierNames]
  · have h0 := hfirst 0 (by omega)
    have h1 := hfirst 1 (by omega)
    simp [findCourier, h0, h1, hmatch, courierNames]
  · have h0 := hfirst 0 (by omega)
    have h1 := hfirst 1 (by omega)
    have h2 := hfirst 2 (by omega)
    simp [findCourier, h0, h1, h2, hmatch, courierNames]
  · have h0 := hfirst 0 (by omega)
    have h1 := hfirst 1 (by omega)
    have h2 := hfirst 2 (by omega)
    have h3 := hfirst 3 (by omega)
    simp [findCourier, h0, h1, h2, h3, hmatch, courierNames]
  · have h0 := hfirst 0 (by omega)
    have h1 := hfirst 1 (by omega)
    have h2 := hfirst 2 (by omega)
    have h3 := hfirst 3 (by omega)
    have h4 := hfirst 4 (by omega)
    simp [findCourier, h0, h1, h2, h3, h4, hmatch, courierNames]
  · have h0 := hfirst 0 (by omega)
    have h1 := hfirst 1 (by omega)
    have h2 := hfirst 2 (by omega)
    have h3 := hfirst 3 (by omega)
    have h4 := hfirst 4 (by omega)
    have h5 := hfirst 5 (by omega)
    simp [findCourier, h0, h1, h2, h3, h4, h5, hmatch, courierNames]

/-- Witness for C5: the page text mentions Shadowfax before Delhivery, yet the
extracted courier is Delhivery, the earlier entry of the priority table. -/
theorem c5_witness :
    patMatch 1 (lowerStr ("Shadowfax Delhivery".toList)) = true ∧
      patMatch 0 (lowerStr ("Shadowfax Delhivery".toList)) = false ∧
      patMatch 5 (lowerStr ("Shadowfax Delhivery".toList)) = true ∧
      (extract_label_info ("2026-10-12".toList) ("Shadowfax Delhivery".toList)).courier =
        courierNames.getD 1 [] :=
  ⟨by decide, by decide, by decide,
    c5_first_match_priority ("2026-10-12".toList) ("Shadowfax Delhivery".toList) 1 (by omega)
      (by decide) (fun k hk => by interval_cases k; decide)⟩

/-- C10 — Implicit empty-SKU edge case: when the `SKU:` pattern matches and
the captured value normalizes to the empty string, the extracted sku is the
empty string (not `"Unknown"`), and the filename built from the record is
`{date}_{courier}_.pdf`, with nothing between the final underscore and the
extension. -/
theorem c10_empty_sku (today text cap : List Char) (hcap : findSku text = some cap)
    (hempty : normalize_sku (pyStrip cap) = []) :
    (extract_label_info today text).sku = [] ∧
      mkFilename (extract_label_info today text).date (extract_label_info today text).courier
          (extract_label_info today text).sku =
        (extract_label_info today text).date ++ ("_".toList) ++
          (extract_label_info today text).courier ++ ("_.pdf".toList) := by
  have hsku : (extract_label_info today text).sku = [] := by
    show (match findSku text with
      | some cap => normalize_sku (pyStrip cap)
      | none => "Unknown".toList) = []
    rw [hcap]
    exact hempty
  refine ⟨hsku, ?_⟩
  rw [hsku]
  show _ ++ _ ++ _ ++ _ ++ [] ++ _ = _
  rw [List.append_nil]
  simp [List.append_assoc]

/-- Witness for C10: a page whose SKU value is `***`, every character of which
normalization deletes. -/
theorem c10_witness :
    findSku ("Ekart\nSKU: ***\n".toList) = some ("***".toList) ∧
      normalize_sku (pyStrip ("***".toList)) = [] ∧
      (extract_label_info ("2026-10-12".toList) ("Ekart\nSKU: ***\n".toList)).sku = [] :=
  ⟨by decide, by decide,
    (c10_empty_sku ("2026-10-12".toList) ("Ekart\nSKU: ***\n".toList) ("***".toList)
        (by decide) (by decide)).1⟩

/-- C3 counterexample — the page text `"ecom"` contains the substring `ecom`
and none of the six earlier carrier substrings, yet page-level extraction
yields `"Unknown"`, not `"EcomExpress"`: the extraction pattern is
`Ecom\s*Express`, which the bare substring `ecom` does not satisfy. -/
theorem c3_counterexample :
    containsL (lowerStr ("ecom".toList)) ("ecom".toList) = true ∧
      patMatch 0 (lowerStr ("ecom".toList)) = false ∧
      patMatch 1 (lowerStr ("ecom".toList)) = false ∧
      patMatch 2 (lowerStr ("ecom".toList)) = false ∧
      patMatch 3 (lowerStr ("ecom".toList)) = false ∧
      patMatch 4 (lowerStr ("ecom".toList)) = false ∧
      patMatch 5 (lowerStr ("ecom".toList)) = false ∧
      (extract_label_info ("2026-10-12".toList) ("ecom".toList)).courier = "Unknown".toList ∧
      "Unknown".toList ≠ "EcomExpress".toList := by
  refine ⟨by decide, by decide, by decide, by decide, by decide, by decide, by decide, by decide, by decide⟩

/-- C3 amended — on a raw courier string, `normalize_courier` maps any input
containing `ecom` (case-insensitively) and none of the six earlier carrier
substrings to `"EcomExpress"`; page-level extraction yields `"EcomExpress"`
only for text matching `Ecom\s*Express` (case-insensitively) when no earlier
pattern matches. -/
theorem c3_ecom_detection (today s text : List Char)
    (h1 : containsL (lowerStr s) ("ekart".toList) = false)
    (h2 : containsL (lowerStr s) ("delhivery".toList) = false)
    (h3 : containsL (lowerStr s) ("xpressbees".toList) = false)
    (h4 : containsL (lowerStr s) ("bluedart".toList) = false)
    (h5 : containsL (lowerStr s) ("dtdc".toList) = false)
    (h6 : containsL (lowerStr s) ("shadowfax".toList) = false)
    (h7 : containsL (lowerStr s) ("ecom".toList) = true)
    (g1 : ∀ k, k < 6 → patMatch k (lowerStr text) = false)
    (g2 : ecomExpressSearch (lowerStr text) = true) :
    normalize_courier s = "EcomExpress".toList ∧
      (extract_label_info today text).courier = "EcomExpress".toList := by
  constructor
  · unfold normalize_courier
    dsimp only
    rw [h1, h2, h3, h4, h5, h6, h7]
    simp
  · have e0 := g1 0 (by omega)
    have e1 := g1 1 (by omega)
    have e2 := g1 2 (by omega)
    have e3 := g1 3 (by omega)
    have e4 := g1 4 (by omega)
    have e5 := g1 5 (by omega)
    show findCourier (lowerStr text) = _
    have e6 : patMatch 6 (lowerStr text) = true := g2
    unfold findCourier
    rw [e0, e1, e2, e3, e4, e5, e6]
    simp

/-- Witness for C3's amended statement at concrete inputs. -/
theorem c3_witness :
    containsL (lowerStr ("Ecom courier".toList)) ("ecom".toList) = true ∧
      ecomExpressSearch (lowerStr ("EcomExpress pkt".toList)) = true ∧
      normalize_courier ("Ecom courier".toList) = "EcomExpress".toList ∧
      (extract_label_info ("2026-10-12".toList) ("EcomExpress pkt".toList)).courier =
        "EcomExpress".toList := by
  refine ⟨by decide, by decide, ?_, ?_⟩
  · exact (c3_ecom_detection ("2026-10-12".toList) ("Ecom courier".toList)
      ("EcomExpress pkt".toList) (by decide) (by decide) (by decide) (by decide) (by decide)
      (by decide) (by decide) (fun k hk => by interval_cases k <;> decide) (by decide)).1
  · exact (c3_ecom_detection ("2026-10-12".toList) ("Ecom courier".toList)
      ("EcomExpress pkt".toList) (by decide) (by decide) (by decide) (by decide) (by decide)
      (by decide) (by decide) (fun k hk => by interval_cases k <;> decide) (by decide)).2

/-- The character class `[A-Za-z0-9_-]` named by the normalization-safety
claim (lower/upper letters, digits, underscore 95, hyphen 45). -/
def isClaimSafeChar (c : Char) : Bool :=
  (97 ≤ c.toNat && c.toNat ≤ 122) || (65 ≤ c.toNat && c.toNat ≤ 90) ||
    (48 ≤ c.toNat && c.toNat ≤ 57) || c.toNat = 95 || c.toNat = 45

theorem safe_of_word_ascii {c : Char} (h : c.toNat < 128)
    (hw : (isPyWord c || c = '-') = true) : isClaimSafeChar c = true := by
  rw [Bool.or_eq_true, decide_eq_true_eq] at hw
  rcases hw with hw | rfl
  · simp only [isPyWord, Bool.or_eq_true, Bool.and_eq_true, decide_eq_true_eq] at hw
    simp only [isClaimSafeChar, Bool.or_eq_true, Bool.and_eq_true, decide_eq_true_eq]
    omega
  · decide

theorem fallback_all_safe (s : List Char) (hascii : ∀ c ∈ s, c.toNat < 128) (n : Nat) :
    ((subNonWord (spacesToHyphens s)).take n).all isClaimSafeChar = true := by
  rw [List.all_eq_true]
  intro c hc
  have hc1 : c ∈ subNonWord (spacesToHyphens s) := List.mem_of_mem_take hc
  obtain ⟨hmem, hpred⟩ := List.mem_filter.mp hc1
  have hlt : c.toNat < 128 := by
    rcases List.mem_map.mp hmem with ⟨c0, hc0, rfl⟩
    have h0 := hascii c0 hc0
    by_cases hsp : c0 = ' '
    · subst hsp
      decide
    · simpa [hsp] using h0
  exact safe_of_word_ascii hlt hpred

/-- C2 counterexample — the claim fails on non-ASCII input: Python's `\w` is
Unicode-aware, so `normalize_sku` keeps the Latin-1 letter `é` (codepoint
0xE9), a character outside `[A-Za-z0-9_-]`. -/
theorem c2_counterexample :
    normalize_sku ("é".toList) = "é".toList ∧
      (normalize_sku ("é".toList)).all isClaimSafeChar = false := by
  exact ⟨by decide, by decide⟩

/-- C2 amended — for ASCII input the normalizers emit only `[A-Za-z0-9_-]`
characters; for all input (ASCII or not) the length bounds (50 for SKU, 30
for courier) hold and empty input yields the empty string. -/
theorem c2_normalization_safety (s : List Char) :
    ((∀ c ∈ s, c.toNat < 128) →
        (normalize_sku s).all isClaimSafeChar = true ∧
          (normalize_courier s).all isClaimSafeChar = true) ∧
      (normalize_sku s).length ≤ 50 ∧
      (normalize_courier s).length ≤ 30 ∧
      normalize_sku [] = [] ∧
      normalize_courier [] = [] := by
  refine ⟨?_, ?_, ?_, rfl, rfl⟩
  · intro hascii
    refine ⟨fallback_all_safe s hascii 50, ?_⟩
    unfold normalize_courier
    dsimp only
    split_ifs <;> first | decide | exact fallback_all_safe s hascii 30
  · exact List.length_take_le 50 _
  · unfold normalize_courier
    dsimp only
    split_ifs <;> first | decide | exact List.length_take_le 30 _

/-- Witness for C2's amended statement on a concrete ASCII string. -/
theorem c2_witness :
    (normalize_sku ("My SKU #1!".toList)).all isClaimSafeChar = true ∧
      (normalize_courier ("My SKU #1!".toList)).all isClaimSafeChar = true :=
  (c2_normalization_safety ("My SKU #1!".toList)).1 (by decide)

/-- The `\d{4}-\d{2}-\d{2}` digit shape that the date regexes capture. -/
def isDateShape : List Char → Bool
  | [y1, y2, y3, y4, h1, m1, m2, h2, d1, d2] =>
    isPyDigit y1 && isPyDigit y2 && isPyDigit y3 && isPyDigit y4 && h1 = '-' &&
      isPyDigit m1 && isPyDigit m2 && h2 = '-' && isPyDigit d1 && isPyDigit d2
  | _ => false

/-- Numeric value of an ASCII digit character. -/
def digitVal (c : Char) : Nat :=
  c.toNat - 48

/-- Modelled from the spec: the Gregorian leap-year rule, needed to state "a
date that actually exists on the calendar". -/
def isLeapYear (y : Nat) : Bool :=
  (y % 4 = 0 && y % 100 ≠ 0) || y % 400 = 0

/-- Modelled from the spec: the length of month `m` in year `y`. -/
def daysInMonth (y m : Nat) : Nat :=
  if m = 2 then (if isLeapYear y then 29 else 28)
  else if m = 4 || m = 6 || m = 9 || m = 11 then 30
  else 31

/-- Modelled from the spec: "an ISO 8601 calendar date (`YYYY-MM-DD`)" that
actually exists on the calendar — digit shape, month 1–12, day within the
month's length.  The code performs no such validation; this definition only
states the claim's property. -/
def isValidCalendarDate (s : List Char) : Bool :=
  match s with
  | [y1, y2, y3, y4, h1, m1, m2, h2, d1, d2] =>
    isPyDigit y1 && isPyDigit y2 && isPyDigit y3 && isPyDigit y4 && h1 = '-' &&
      isPyDigit m1 && isPyDigit m2 && h2 = '-' && isPyDigit d1 && isPyDigit d2 &&
      (let y := 1000 * digitVal y1 + 100 * digitVal y2 + 10 * digitVal y3 + digitVal y4
       let m := 10 * digitVal m1 + digitVal m2
       let d := 10 * digitVal d1 + digitVal d2
       1 ≤ m && m ≤ 12 && 1 ≤ d && d ≤ daysInMonth y m)
  | _ => false

theorem dateAt_shape {t d : List Char} (h : dateAt t = some d) : isDateShape d = true := by
  unfold dateAt at h
  split at h
  · split at h
    · injection h with h'
      subst h'
      assumption
    · cases h
  · cases h

theorem findDateBare_shape : ∀ (t d : List Char), findDateBare t = some d → isDateShape d = true
  | [], _, h => by simp [findDateBare] at h
  | c :: t, d, h => by
    rw [findDateBare] at h
    cases hda : dateAt (c :: t) with
    | some d' =>
      rw [hda] at h
      injection h with h'
      subst h'
      exact dateAt_shape hda
    | none =>
      rw [hda] at h
      exact findDateBare_shape t d h

theorem findInvoiceDate_shape : ∀ (t d : List Char),
    findInvoiceDate t = some d → isDateShape d = true
  | [], _, h => by simp [findInvoiceDate] at h
  | c :: t, d, h => by
    rw [findInvoiceDate] at h
    split at h
    · cases hda : dateAt (dropPySpaces ((c :: t).drop 13)) with
      | some d' =>
        rw [hda] at h
        injection h with h'
        subst h'
        exact dateAt_shape hda
      | none =>
        rw [hda] at h
        exact findInvoiceDate_shape t d h
    · exact findInvoiceDate_shape t d h

/-- C8 counterexample — extraction copies any `\d{4}-\d{2}-\d{2}` match into
the date field without calendar validation: `2024-13-45` (month 13, day 45)
is extracted verbatim and is not a calendar date, while the processing-date
default plays no role here. -/
theorem c8_counterexample :
    (extract_label_info ("2026-10-12".toList) ("Ekart 2024-13-45".toList)).date =
        "2024-13-45".toList ∧
      isValidCalendarDate ("2024-13-45".toList) = false ∧
      isValidCalendarDate ("2026-10-12".toList) = true := by
  exact ⟨by decide, by decide, by decide⟩

/-- C8 amended — for every page, the extracted date is either the processing
date (the default used when no date pattern is found) or a ten-character
string matching the `\d{4}-\d{2}-\d{2}` digit shape taken from the page text;
the digits need not form a real calendar date. -/
theorem c8_date_shape (today text : List Char) :
    (extract_label_info today text).date = today ∨
      isDateShape (extract_label_info today text).date = true := by
  have hdate : (extract_label_info today text).date =
      (match findInvoiceDate text with
        | some d => d
        | none =>
          match findDateBare text with
          | some d => d
          | none => today) := rfl
  rcases h1 : findInvoiceDate text with _ | d
  · rcases h2 : findDateBare text with _ | d
    · left
      rw [hdate, h1, h2]
    · right
      rw [hdate, h1, h2]
      exact findDateBare_shape text d h2
  · right
    rw [hdate, h1]
    exact findInvoiceDate_shape text d h1

/-- C4 counterexample — a CLI run on a two-group document whose second write
fails is a failing run, yet the first group's file has already been delivered
to the output directory: the delivered set is not empty. -/
theorem c4_counterexample :
    (runCLI (fun f => !(f == ("2024-01-16_Delhivery_XYZ_99.pdf".toList)))
        ((sort_labels ("2026-10-12".toList)
          [("Ekart Logistics\nSKU: ABC-123\nInvoice Date: 2024-01-15".toList),
           ("Delhivery Express\nSKU: XYZ_99\nInvoice Date: 2024-01-16".toList)]).files)).2 =
        false ∧
      (runCLI (fun f => !(f == ("2024-01-16_Delhivery_XYZ_99.pdf".toList)))
        ((sort_labels ("2026-10-12".toList)
          [("Ekart Logistics\nSKU: ABC-123\nInvoice Date: 2024-01-15".toList),
           ("Delhivery Express\nSKU: XYZ_99\nInvoice Date: 2024-01-16".toList)]).files)).1 =
        [("2024-01-15_Ekart_ABC-123.pdf".toList)] := by
  exact ⟨by decide, by decide⟩

/-- C4 amended — a write failure aborts the run in both delivery paths
(failure flag / `none`); in the archive (web) path a failing run delivers no
artifacts, while in the CLI path exactly the files written before the first
failure remain delivered. -/
theorem c4_output_atomicity (ok : List Char → Bool) (entries : List OutputEntry) :
    runWeb ok entries =
        (if entries.all (fun e => ok e.file) then some (entries.map (fun e => e.file))
         else none) ∧
      runCLI ok entries =
        ((entries.takeWhile (fun e => ok e.file)).map (fun e => e.file),
          entries.all (fun e => ok e.file)) := by
  induction entries with
  | nil => exact ⟨rfl, rfl⟩
  | cons e rest ih =>
    obtain ⟨ihw, ihc⟩ := ih
    cases h : ok e.file with
    | false =>
      refine ⟨?_, ?_⟩
      · simp [runWeb, h, List.all_cons]
      · simp [runCLI, h, List.all_cons, List.takeWhile_cons]
    | true =>
      cases hall : rest.all (fun x => ok x.file) with
      | true =>
        refine ⟨?_, ?_⟩
        · simp [runWeb, h, List.all_cons, hall, ihw]
        · simp [runCLI, h, List.all_cons, hall, ihc, List.takeWhile_cons]
      | false =>
        refine ⟨?_, ?_⟩
        · simp [runWeb, h, List.all_cons, hall, ihw]
        · simp [runCLI, h, List.all_cons, hall, ihc, List.takeWhile_cons]

end LabelSorter
